import Mathlib

set_option maxHeartbeats 1000000

/-!
Verification of the dynamic value model of `substreams-alloy-helpers`
(src/json_values.rs and the modules it relies on).

The embedding translates the Rust code into Lean:
* machine integers (`U1`, `U8`, `U256`, byte values) become `Nat` with explicit
  bounds collected in `wellFormed`;
* fallible Rust code becomes `Option`; Rust panics (`panic!`, `todo!`,
  `expect`, `unwrap`) become `Except.error` carrying the panic message;
* `serde_json::Value` becomes `Json`, with objects as association lists.
  serde_json is used with its default map representation (a `BTreeMap`), so
  object iteration order is ascending lexicographic key order; call sites
  model this by sorting the field list by key before iterating;
* `HashMap<String, SolidityType>` becomes an association list with unique
  keys (the iteration order of one concrete map is the list order).
-/

namespace SubstreamsAlloy

/-- JSON values, modelling `serde_json::Value` as consumed by the repository.
`num` is restricted to mathematical integers: the claims under study only
involve integral JSON numbers (`serde_json::Number` additionally carries
floats, for which `as_i64` also fails on non-integral values). -/
inductive Json where
  | null
  | bool (b : Bool)
  | num (n : Int)
  | str (s : String)
  | arr (elems : List Json)
  | obj (fields : List (String × Json))
deriving Repr

/-- The Dynamic Value model: Rust `enum SolidityType` (src/json_values.rs,
lines 47-62).  `Boolean` holds a `U1` (modelled as `Bool`), `Enum` a `U8`,
`Uint` a `U256`, `Address` 20 bytes, `ByteArray` arbitrary bytes,
`FixedArray` a `B256` (32 bytes), `String` UTF-8 text; `Tuple`/`List` are
ordered sequences, `Struct` is a `HashMap<String, SolidityType>` and `Null`
is the serde-skipped absence marker. -/
inductive SolidityType where
  | Boolean (b : Bool)
  | Enum (v : Nat)
  | Uint (v : Nat)
  | Address (a : List Nat)
  | ByteArray (b : List Nat)
  | FixedArray (b : List Nat)
  | String (s : String)
  | Tuple (vals : List SolidityType)
  | List (vals : List SolidityType)
  | Struct (fields : List (String × SolidityType))
  | Null
deriving Repr

mutual

/-- Holds (`true`) iff the value has no `Null` anywhere, i.e. no Null descendants
(the hypothesis of the spec's round-trip property, §8). -/
def noNull : SolidityType → Bool
  | .Tuple vs => noNullList vs
  | .List vs => noNullList vs
  | .Struct fs => noNullFields fs
  | .Null => false
  | _ => true

def noNullList : List SolidityType → Bool
  | [] => true
  | v :: vs => noNull v && noNullList vs

def noNullFields : List (String × SolidityType) → Bool
  | [] => true
  | kv :: fs => noNull kv.2 && noNullFields fs

end

mutual

/-- Payload bounds of a constructible Rust value: `U8 < 256`, `U256 < 2^256`,
an `Address` is exactly 20 bytes, a `B256` exactly 32 bytes, and every byte
is `< 256`.  Every value the Rust code can build satisfies this; the Lean
payloads are plain `Nat`, so the bounds are carried separately. -/
def wellFormed : SolidityType → Bool
  | .Boolean _ => true
  | .Enum v => decide (v < 256)
  | .Uint v => decide (v < 2 ^ 256)
  | .Address a => decide (a.length = 20) && a.all (fun b => decide (b < 256))
  | .ByteArray bs => bs.all (fun b => decide (b < 256))
  | .FixedArray bs => decide (bs.length = 32) && bs.all (fun b => decide (b < 256))
  | .String _ => true
  | .Tuple vs => wellFormedList vs
  | .List vs => wellFormedList vs
  | .Struct fs => wellFormedFields fs
  | .Null => true

def wellFormedList : List SolidityType → Bool
  | [] => true
  | v :: vs => wellFormed v && wellFormedList vs

def wellFormedFields : List (String × SolidityType) → Bool
  | [] => true
  | kv :: fs => wellFormed kv.2 && wellFormedFields fs

end

/-! Section: Scalar codec

Decimal and hexadecimal canonical strings (spec §3 and §4.1).  The concrete
string conversions of the scalar payloads live in the external `alloy`
crates; they are modelled from the spec: the canonical string of an integer
is its decimal form, and of a byte form `"0x"` followed by two lowercase hex
characters per byte. -/

/-- The character for the digit `d < 16` (decimal digits, then lowercase hex
letters). -/
def digitToChar (d : Nat) : Char :=
  if d < 10 then Char.ofNat (48 + d) else Char.ofNat (87 + d)

/-- Decimal digit value of a character, `none` for non-digits. -/
def decDigit? (c : Char) : Option Nat :=
  if 48 ≤ c.toNat ∧ c.toNat ≤ 57 then some (c.toNat - 48) else none

/-- Hexadecimal digit value of a character (both cases), `none` otherwise. -/
def hexDigit? (c : Char) : Option Nat :=
  if 48 ≤ c.toNat ∧ c.toNat ≤ 57 then some (c.toNat - 48)
  else if 97 ≤ c.toNat ∧ c.toNat ≤ 102 then some (c.toNat - 87)
  else if 65 ≤ c.toNat ∧ c.toNat ≤ 70 then some (c.toNat - 55)
  else none

/-- Most-significant-first decimal digits of `n`, with explicit fuel (any
`fuel ≥ n` is enough); `[]` for `n = 0`. -/
def decDigitsAux : Nat → Nat → List Nat
  | 0, _ => []
  | fuel + 1, n => if n = 0 then [] else decDigitsAux fuel (n / 10) ++ [n % 10]

/-- Canonical decimal string of a natural number. -/
def natToDecimal (n : Nat) : String :=
  if n = 0 then "0" else ⟨(decDigitsAux n n).map digitToChar⟩

/-- Strict decimal parse (spec §4.1: integers must be valid base-10): one or
more ASCII digits and nothing else. -/
def decimalToNat? (s : String) : Option Nat :=
  if s.data.isEmpty then none
  else if s.data.all (fun c => (decDigit? c).isSome) then
    some (s.data.foldl (fun a c => a * 10 + ((decDigit? c).getD 0)) 0)
  else none

/-- Two lowercase hex characters per byte, most significant nibble first. -/
def byteHexChars : List Nat → List Char
  | [] => []
  | b :: bs => digitToChar (b / 16) :: digitToChar (b % 16) :: byteHexChars bs

/-- Inverse of `byteHexChars`: consume hex characters two at a time. -/
def hexCharsToBytes : List Char → Option (List Nat)
  | [] => some []
  | c1 :: c2 :: rest =>
    match hexDigit? c1, hexDigit? c2, hexCharsToBytes rest with
    | some d1, some d2, some bs => some ((d1 * 16 + d2) :: bs)
    | _, _, _ => none
  | _ => none

/-- Canonical string of a byte form: `"0x"` followed by the hex characters
(spec §3: `"0x"+hex`). -/
def bytesToHexString (bs : List Nat) : String :=
  "0x" ++ ⟨byteHexChars bs⟩

/-- Strict parse of a `"0x"`-prefixed hex byte string (spec §4.1: byte forms
must be well-formed hex with the `"0x"` prefix). -/
def hexStringToBytes? (s : String) : Option (List Nat) :=
  match s.data with
  | '0' :: 'x' :: rest => hexCharsToBytes rest
  | _ => none

/-- Hex digits (after a `"0x"` prefix) to a number, most significant first;
`none` if empty or a non-hex character appears.  Models `ruint`'s hex
parsing of `U256` strings. -/
def hexDigitsToNat? (cs : List Char) : Option Nat :=
  if cs.isEmpty then none
  else if cs.all (fun c => (hexDigit? c).isSome) then
    some (cs.foldl (fun a c => a * 16 + ((hexDigit? c).getD 0)) 0)
  else none

/-- Embedding of `impl ToString for SolidityType` (src/json_values.rs, lines 513-539):
the canonical string of every scalar, `"null"` for `Null`, and a panic for
the three composite shapes.  The `Address` display is modelled from the
spec (§3: canonical string = `"0x"` + 40 hex chars; the Rust code defers to
the external alloy `Display`). -/
def toCanonicalString : SolidityType → Except String String
  | .Boolean b => .ok (if b then "true" else "false")
  | .Enum v => .ok (natToDecimal v)
  | .Uint v => .ok (natToDecimal v)
  | .Address a => .ok (bytesToHexString a)
  | .ByteArray bs => .ok (bytesToHexString bs)
  | .FixedArray bs => .ok (bytesToHexString bs)
  | .String s => .ok s
  | .Null => .ok "null"
  | .Tuple _ => .error "Can't convert a tuple to a string!"
  | .List _ => .error "Can't convert a list to a string!"
  | .Struct _ => .error "Can't convert a struct to a string!"

/-! Section: Arithmetic and comparisons

`impl Add/Sub/Mul/Div/PartialEq/PartialOrd for SolidityType`
(src/json_values.rs, lines 671-823).  The generic right-hand side is already
converted `Into` a `SolidityType` at the start of each Rust method, so the
embedding takes both operands as `SolidityType`.  `U256` arithmetic is the
release-build (wrapping) semantics, written with an explicit `% 2^256`; no
claim under study exercises overflow. -/

/-- Embedding of `impl Add for SolidityType` (lines 671-701): `Null` is a two-sided
identity, a `String` left operand concatenates with the right operand's
canonical string, `Uint + Uint` adds, and anything else panics. -/
def add : SolidityType → SolidityType → Except String SolidityType
  | .Null, rhs => .ok rhs
  | lhs, .Null => .ok lhs
  | .String s, rhs => (toCanonicalString rhs).map (fun r => .String (s ++ r))
  | .Uint a, .Uint b => .ok (.Uint ((a + b) % 2 ^ 256))
  | _, _ => .error "Can't add these values together!"

/-- Embedding of `impl Sub for SolidityType` (lines 703-728): the same two `Null`
short-circuits as `add` (each returns the other operand), then
`Uint - Uint`; anything else panics. -/
def sub : SolidityType → SolidityType → Except String SolidityType
  | .Null, rhs => .ok rhs
  | lhs, .Null => .ok lhs
  | .Uint a, .Uint b => .ok (.Uint ((2 ^ 256 + a - b) % 2 ^ 256))
  | _, _ => .error "Can't sub these values! Both values must be a uint!"

/-- Embedding of `impl Mul for SolidityType` (lines 730-754): `Null` is absorbing on
either side, then `Uint * Uint`; anything else panics. -/
def mul : SolidityType → SolidityType → Except String SolidityType
  | .Null, _ => .ok .Null
  | _, .Null => .ok .Null
  | .Uint a, .Uint b => .ok (.Uint (a * b % 2 ^ 256))
  | _, _ => .error "Can't mul these values! Both values must be a uint!"

/-- Embedding of `impl Div for SolidityType` (lines 756-780): `Null` is absorbing on
either side, then `Uint / Uint` (panicking on a zero divisor, as `ruint`
does); anything else panics. -/
def div : SolidityType → SolidityType → Except String SolidityType
  | .Null, _ => .ok .Null
  | _, .Null => .ok .Null
  | .Uint a, .Uint b => if b = 0 then .error "division by zero" else .ok (.Uint (a / b))
  | _, _ => .error "Can't div these values! Both values must be a uint!"

/-- Embedding of `PartialEq::eq` (lines 787-795): defined for `Uint`-`Uint` and
`Address`-`Address` only; every other pairing panics. -/
def eqST : SolidityType → SolidityType → Except String Bool
  | .Uint a, .Uint b => .ok (decide (a = b))
  | .Address a, .Address b => .ok (decide (a = b))
  | _, _ => .error "Can't compare these values"

/-- Embedding of `PartialEq::ne` (lines 797-805): the manually written negation, with the
same panicking domain as `eqST`. -/
def neST : SolidityType → SolidityType → Except String Bool
  | .Uint a, .Uint b => .ok (decide (a ≠ b))
  | .Address a, .Address b => .ok (decide (a ≠ b))
  | _, _ => .error "Can't compare these values"

/-- Byte-wise lexicographic comparison, the `Ord` of the fixed-size alloy
byte arrays backing `Address`. -/
def compareBytes : List Nat → List Nat → Ordering
  | [], [] => .eq
  | [], _ :: _ => .lt
  | _ :: _, [] => .gt
  | a :: as, b :: bs => if a < b then .lt else if b < a then .gt else compareBytes as bs

/-- Embedding of `PartialOrd::partial_cmp` (lines 813-822): defined for `Uint`-`Uint`,
`String`-`String` and `Address`-`Address` (all total on their payloads, so
the Rust result is always `Some`); every other pairing panics. -/
def cmp : SolidityType → SolidityType → Except String (Option Ordering)
  | .Uint a, .Uint b => .ok (some (compare a b))
  | .String a, .String b => .ok (some (compare a b))
  | .Address a, .Address b => .ok (some (compareBytes a b))
  | _, _ => .error "Can't compare these values"

/-! Section: Structural access -/

/-- Rust `<usize as FromStr>::from_str`: an optional leading `'+'`, then one
or more ASCII digits, rejecting values that overflow 64 bits. -/
def parseUsize? (s : String) : Option Nat :=
  let cs := match s.data with
    | '+' :: rest => rest
    | cs => cs
  if cs.isEmpty then none
  else if cs.all (fun c => (decDigit? c).isSome) then
    let n := cs.foldl (fun a c => a * 10 + ((decDigit? c).getD 0)) 0
    if n < 2 ^ 64 then some n else none
  else none

/-- Embedding of `SolidityType::get` (src/json_values.rs, lines 304-345).  An empty
`Tuple`/`List` short-circuits to `Null` before the key is parsed; a
non-numeric key on a non-empty `Tuple`/`List` panics (`expect`); an
out-of-range index yields `Null`; a `Struct` looks the field up, `Null` when
missing; every scalar and `Null` yield `Null`. -/
def get (v : SolidityType) (key : String) : Except String SolidityType :=
  match v with
  | .Tuple vals =>
    if vals.length = 0 then .ok .Null
    else
      match parseUsize? key with
      | none => .error (key ++ " Couldn't parse key into number for tuple get!")
      | some i => .ok ((vals[i]?).getD .Null)
  | .List vals =>
    if vals.length = 0 then .ok .Null
    else
      match parseUsize? key with
      | none => .error "Couldn't parse key into number for list get!"
      | some i => .ok ((vals[i]?).getD .Null)
  | .Struct fields => .ok ((fields.lookup key).getD .Null)
  | _ => .ok .Null

/-! Section: prune-empty -/

mutual

/-- Embedding of `SolidityType::to_maybe_value` (src/json_values.rs, lines 464-505), the
spec's `prune_empty`.  Children of a composite are pruned with `filter_map`;
the `Tuple` and `List` branches then test `vals.len() == 0` on the
*original* vector (exactly as the Rust code does), while the `Struct` branch
tests emptiness of the *pruned* map. -/
def toMaybeValue : SolidityType → Option SolidityType
  | .Tuple vals =>
    let values := toMaybeList vals
    if vals.length = 0 then none else some (.Tuple values)
  | .List vals =>
    let values := toMaybeList vals
    if vals.length = 0 then none else some (.List values)
  | .Struct fields =>
    let m := toMaybeFields fields
    if m.isEmpty then none else some (.Struct m)
  | .Null => none
  | v => some v

/-- Embedding of `vals.iter().filter_map(|item| item.to_maybe_value()).collect()`. -/
def toMaybeList : List SolidityType → List SolidityType
  | [] => []
  | v :: vs =>
    match toMaybeValue v with
    | none => toMaybeList vs
    | some w => w :: toMaybeList vs

/-- The `Struct` branch's map/filter/unwrap chain over the field list. -/
def toMaybeFields : List (String × SolidityType) → List (String × SolidityType)
  | [] => []
  | (k, v) :: fs =>
    match toMaybeValue v with
    | none => toMaybeFields fs
    | some w => (k, w) :: toMaybeFields fs

end

/-! Section: Type guesser -/

/-- The tuple-key check of `guess_json_value`: `Regex::new(r"_\d+").find(key)`
compared with the whole key, which holds exactly when the key is `'_'`
followed by one or more ASCII digits. -/
def isTupleKey (s : String) : Bool :=
  match s.data with
  | '_' :: rest => !rest.isEmpty && rest.all (fun c => (decDigit? c).isSome)
  | _ => false

/-- Insert one field into a key-sorted field list (ascending `String`
order). -/
def insertField (kv : String × Json) : List (String × Json) → List (String × Json)
  | [] => [kv]
  | kv' :: rest => if kv.1 < kv'.1 then kv :: kv' :: rest else kv' :: insertField kv rest

/-- Sort an object's fields by key: the iteration order of the
`serde_json::Map` (a `BTreeMap` under serde_json's default features) that
`keys()`, `values()` and `into_iter()` expose to `guess_json_value`. -/
def sortFields : List (String × Json) → List (String × Json)
  | [] => []
  | kv :: rest => insertField kv (sortFields rest)

/-- Embedding of `s.starts_with("0x")`. -/
def startsWith0x (s : String) : Bool :=
  match s.data with
  | '0' :: 'x' :: _ => true
  | _ => false

/-- Modelled from the spec: `<Address as FromStr>::from_str` lives in the
external alloy crates; spec §3/§4.1 make a well-formed address string
`"0x"` + 40 hex characters, parsed strictly into 20 bytes. -/
def parseAddressStr? (s : String) : Option (List Nat) :=
  (hexStringToBytes? s).bind (fun bs => if bs.length = 20 then some bs else none)

/-- Modelled from the spec: `<U256 as FromStr>::from_str` lives in the
external `ruint` crate; a `"0x"`-prefixed string parses as hex, anything
else as strict decimal, and values of 256 bits or more are rejected
(spec §4.1: numeric width is fixed at 256 bits). -/
def parseU256Str? (s : String) : Option Nat :=
  let n? := match s.data with
    | '0' :: 'x' :: rest => hexDigitsToNat? rest
    | _ => decimalToNat? s
  n?.bind (fun n => if n < 2 ^ 256 then some n else none)

/-- Modelled from the spec: `<Bytes as FromStr>::from_str` lives in the
external alloy crates; spec §3/§4.1 make a byte string `"0x"`-prefixed
well-formed hex, i.e. an even run of hex characters. -/
def parseBytesStr? (s : String) : Option (List Nat) :=
  hexStringToBytes? s

/-- The `Value::String` branch of `guess_json_value` (src/json_values.rs,
lines 80-104): length-based heuristics on `"0x"`-prefixed strings (the
`val.len()` calls are Rust byte lengths), with `sol_type!`'s
`parse().unwrap()` panicking on a malformed payload; any other string is
`Text`.  (`sol_type!` ends with a `to_json_value()` call whose definition is
repository code missing from src/; modelled from the spec, §4.4, as yielding
the guessed Dynamic Value itself.) -/
def guessString (s : String) : Except String (Option SolidityType) :=
  if startsWith0x s ∧ s.utf8ByteSize = 42 then
    match parseAddressStr? s with
    | some a => .ok (some (.Address a))
    | none => .error "called Option::unwrap on a None value"
  else if startsWith0x s ∧ s.utf8ByteSize = 66 then
    match parseU256Str? s with
    | some n => .ok (some (.Uint n))
    | none => .error "called Option::unwrap on a None value"
  else if startsWith0x s ∧ 66 < s.utf8ByteSize then
    match parseBytesStr? s with
    | some bs => .ok (some (.ByteArray bs))
    | none => .error "called Option::unwrap on a None value"
  else if startsWith0x s then
    match parseU256Str? s with
    | some n => .ok (some (.Uint n))
    | none => .error "called Option::unwrap on a None value"
  else .ok (some (.String s))

mutual

/-- Embedding of `GuessValue<&Value>::guess_json_value` (src/json_values.rs, lines
76-160).  The Rust function returns `Option<SolidityType>`; panics
(`todo!`, `unwrap`) are the `Except.error` layer.  Objects are iterated in
the `BTreeMap`'s ascending key order (`sortFields`); if every key matches
`_\d+` the object is a tuple candidate (a single value is unwrapped, not
wrapped in a one-element tuple), otherwise it is guessed as a `Struct`.
`Value::Null` hits `todo!("Null types shouldn't be returned?")`.  A number
goes through `num.as_i64().unwrap()` (panicking outside the `i64` range)
and then `U256::from` (panicking on a negative). -/
def guessJsonValue : Json → Except String (Option SolidityType)
  | .bool b => .ok (some (.Boolean b))
  | .str s => guessString s
  | .obj fields =>
    if ((sortFields fields).map Prod.fst).all isTupleKey then
      match guessValues ((sortFields fields).map Prod.snd) with
      | .error e => .error e
      | .ok [v] => .ok (some v)
      | .ok values => .ok (some (.Tuple values))
    else
      match guessFields (sortFields fields) with
      | .error e => .error e
      | .ok kvs => .ok (some (.Struct kvs))
  | .arr elems =>
    match guessValues elems with
    | .error e => .error e
    | .ok values => .ok (some (.List values))
  | .null => .error "not yet implemented: Null types shouldn't be returned?"
  | .num n =>
    if -(2 ^ 63) ≤ n ∧ n < 2 ^ 63 then
      if 0 ≤ n then .ok (some (.Uint n.toNat))
      else .error "From: the value is negative"
    else .error "called Option::unwrap on a None value"
termination_by j => sizeOf j
decreasing_by
  all_goals simp_wf
  all_goals
    (have hperm : ∀ l : List (String × Json), List.Perm (sortFields l) l := by
       intro l
       induction l with
       | nil => exact List.Perm.refl _
       | cons kv rest ih =>
         have hins : ∀ (kv : String × Json) (l : List (String × Json)),
             List.Perm (insertField kv l) (kv :: l) := by
           intro kv l
           induction l with
           | nil => exact List.Perm.refl _
           | cons kv' rest' ih' =>
             by_cases h : kv.1 < kv'.1
             · simp [insertField, h]
             · simp only [insertField, if_neg h]
               exact (ih'.cons kv').trans (List.Perm.swap kv kv' rest')
         exact (hins kv (sortFields rest)).trans (ih.cons kv)
     have hsort : ∀ l : List (String × Json), sizeOf (sortFields l) = sizeOf l := by
       intro l
       exact (hperm l).sizeOf_eq_sizeOf
     have hmap : ∀ l : List (String × Json), sizeOf (l.map Prod.snd) ≤ sizeOf l := by
       intro l
       induction l with
       | nil => simp
       | cons kv rest ih =>
         cases kv with
         | mk k v =>
           simp only [List.map_cons, List.cons.sizeOf_spec, Prod.mk.sizeOf_spec]
           omega
     first
     | omega
     | exact lt_of_le_of_lt (le_trans (hmap _) (le_of_eq (hsort _))) (by omega)
     | exact lt_of_le_of_lt (le_of_eq (hsort _)) (by omega))

/-- Embedding of the `.map(|value| guess_json_value(value).unwrap()).collect()` chain:
guess each element, panicking (via `unwrap`) if a recursive guess returns
`None`. -/
def guessValues : List Json → Except String (List SolidityType)
  | [] => .ok []
  | j :: js =>
    match guessJsonValue j with
    | .error e => .error e
    | .ok none => .error "called Option::unwrap on a None value"
    | .ok (some v) =>
      match guessValues js with
      | .error e => .error e
      | .ok vs => .ok (v :: vs)
termination_by js => sizeOf js

/-- The struct branch's `(key, guess_json_value(value).unwrap())` chain. -/
def guessFields : List (String × Json) → Except String (List (String × SolidityType))
  | [] => .ok []
  | (k, j) :: fs =>
    match guessJsonValue j with
    | .error e => .error e
    | .ok none => .error "called Option::unwrap on a None value"
    | .ok (some v) =>
      match guessFields fs with
      | .error e => .error e
      | .ok kvs => .ok ((k, v) :: kvs)
termination_by fs => sizeOf fs

end

/-! Section: Tagged-JSON codec

The serde codec derived by
`#[serde(tag = "type", content = "value", rename_all = "camelCase")]`
(src/json_values.rs, lines 47-62): every variant encodes as
`{ "type": <camelCase variant name>, "value": <payload> }`, `Null` is
`#[serde(skip)]` (serializing it, or anything containing it, fails — the
`Option` layer), and decoding dispatches on the tag.  Scalar payload
encodings are modelled from the spec (§4.3: the canonical string of the
scalar; the concrete serde impls live in the external alloy crates). -/

/-- The adjacently tagged object `{ "type": tag, "value": payload }`. -/
def taggedJson (tag : String) (payload : Json) : Json :=
  .obj [("type", .str tag), ("value", payload)]

mutual

/-- Serialization of a Dynamic Value to Tagged-JSON; `none` models a serde
serialization error (the skipped `Null` variant anywhere in the value). -/
def encodeTaggedJson : SolidityType → Option Json
  | .Boolean b => some (taggedJson "boolean" (.str (if b then "true" else "false")))
  | .Enum v => some (taggedJson "enum" (.str (natToDecimal v)))
  | .Uint v => some (taggedJson "uint" (.str (natToDecimal v)))
  | .Address a => some (taggedJson "address" (.str (bytesToHexString a)))
  | .ByteArray bs => some (taggedJson "byteArray" (.str (bytesToHexString bs)))
  | .FixedArray bs => some (taggedJson "fixedArray" (.str (bytesToHexString bs)))
  | .String s => some (taggedJson "string" (.str s))
  | .Tuple vs =>
    match encodeList vs with
    | some js => some (taggedJson "tuple" (.arr js))
    | none => none
  | .List vs =>
    match encodeList vs with
    | some js => some (taggedJson "list" (.arr js))
    | none => none
  | .Struct fs =>
    match encodeFields fs with
    | some js => some (taggedJson "struct" (.obj js))
    | none => none
  | .Null => none

def encodeList : List SolidityType → Option (List Json)
  | [] => some []
  | v :: vs =>
    match encodeTaggedJson v, encodeList vs with
    | some j, some js => some (j :: js)
    | _, _ => none

def encodeFields : List (String × SolidityType) → Option (List (String × Json))
  | [] => some []
  | (k, v) :: fs =>
    match encodeTaggedJson v, encodeFields fs with
    | some j, some js => some ((k, j) :: js)
    | _, _ => none

end

mutual

/-- Deserialization of Tagged-JSON; `none` models a serde error (a missing
or unknown tag — including the never-encoded `"null"` — or a malformed
payload).  serde's adjacently tagged decoder accepts the two fields in
either order, so both orders are matched; the first is the only shape the
encoder emits. -/
def decodeTaggedJson : Json → Option SolidityType
  | .obj [("type", .str tag), ("value", payload)] => decodePayload tag payload
  | .obj [("value", payload), ("type", .str tag)] => decodePayload tag payload
  | _ => none

/-- Tag dispatch: decode `payload` as the variant named `tag`, strictly
parsing scalar payloads back from their canonical strings (spec §4.1) and
recursing into composite payloads. -/
def decodePayload : String → Json → Option SolidityType
  | "boolean", .str s =>
    if s = "true" then some (.Boolean true)
    else if s = "false" then some (.Boolean false)
    else none
  | "enum", .str s => (decimalToNat? s).bind (fun n => if n < 256 then some (.Enum n) else none)
  | "uint", .str s => (decimalToNat? s).bind (fun n => if n < 2 ^ 256 then some (.Uint n) else none)
  | "address", .str s =>
    (hexStringToBytes? s).bind (fun bs => if bs.length = 20 then some (.Address bs) else none)
  | "byteArray", .str s =>
    match hexStringToBytes? s with
    | some bs => some (.ByteArray bs)
    | none => none
  | "fixedArray", .str s =>
    (hexStringToBytes? s).bind (fun bs => if bs.length = 32 then some (.FixedArray bs) else none)
  | "string", .str s => some (.String s)
  | "tuple", .arr js =>
    match decodeList js with
    | some vs => some (.Tuple vs)
    | none => none
  | "list", .arr js =>
    match decodeList js with
    | some vs => some (.List vs)
    | none => none
  | "struct", .obj kvs =>
    match decodeFields kvs with
    | some fs => some (.Struct fs)
    | none => none
  | _, _ => none

def decodeList : List Json → Option (List SolidityType)
  | [] => some []
  | j :: js =>
    match decodeTaggedJson j, decodeList js with
    | some v, some vs => some (v :: vs)
    | _, _ => none

def decodeFields : List (String × Json) → Option (List (String × SolidityType))
  | [] => some []
  | (k, j) :: kvs =>
    match decodeTaggedJson j, decodeFields kvs with
    | some v, some fs => some ((k, v) :: fs)
    | _, _ => none

end

/-- Variant discriminators used to state the comparison domain. -/
def isUintV : SolidityType → Bool
  | .Uint _ => true
  | _ => false

def isAddressV : SolidityType → Bool
  | .Address _ => true
  | _ => false

def isStringV : SolidityType → Bool
  | .String _ => true
  | _ => false

/-! Section: Theorems -/

/-- Induction over the nested `SolidityType`: composite cases get the
inductive hypothesis for every child. -/
theorem solInduction (P : SolidityType → Prop)
    (hBool : ∀ b, P (.Boolean b)) (hEnum : ∀ v, P (.Enum v)) (hUint : ∀ v, P (.Uint v))
    (hAddr : ∀ a, P (.Address a)) (hBytes : ∀ bs, P (.ByteArray bs))
    (hFixed : ∀ bs, P (.FixedArray bs)) (hStr : ∀ s, P (.String s))
    (hTuple : ∀ vs, (∀ v ∈ vs, P v) → P (.Tuple vs))
    (hList : ∀ vs, (∀ v ∈ vs, P v) → P (.List vs))
    (hStruct : ∀ fs, (∀ kv ∈ fs, P kv.2) → P (.Struct fs))
    (hNull : P .Null) : ∀ v, P v
  | .Boolean b => hBool b
  | .Enum v => hEnum v
  | .Uint v => hUint v
  | .Address a => hAddr a
  | .ByteArray bs => hBytes bs
  | .FixedArray bs => hFixed bs
  | .String s => hStr s
  | .Tuple vs => hTuple vs (fun v hv =>
      solInduction P hBool hEnum hUint hAddr hBytes hFixed hStr hTuple hList hStruct hNull v)
  | .List vs => hList vs (fun v hv =>
      solInduction P hBool hEnum hUint hAddr hBytes hFixed hStr hTuple hList hStruct hNull v)
  | .Struct fs => hStruct fs (fun kv hkv =>
      solInduction P hBool hEnum hUint hAddr hBytes hFixed hStr hTuple hList hStruct hNull kv.2)
  | .Null => hNull
termination_by v => sizeOf v
decreasing_by
  · have := List.sizeOf_lt_of_mem hv
    simp only [SolidityType.Tuple.sizeOf_spec]
    omega
  · have := List.sizeOf_lt_of_mem hv
    simp only [SolidityType.List.sizeOf_spec]
    omega
  · have h1 := List.sizeOf_lt_of_mem hkv
    cases kv with
    | mk k v =>
      simp only [SolidityType.Struct.sizeOf_spec, Prod.mk.sizeOf_spec] at *
      omega

/-! Section: Scalar codec round trips -/

theorem decDigit_digitToChar : ∀ d, d < 10 → decDigit? (digitToChar d) = some d := by decide

theorem hexDigit_digitToChar : ∀ d, d < 16 → hexDigit? (digitToChar d) = some d := by decide

theorem decDigitsAux_lt (fuel : Nat) : ∀ n d, d ∈ decDigitsAux fuel n → d < 10 := by
  induction fuel with
  | zero => intro n d h; simp [decDigitsAux] at h
  | succ fuel ih =>
    intro n d h
    by_cases hn : n = 0
    · simp [decDigitsAux, hn] at h
    · simp only [decDigitsAux, if_neg hn, List.mem_append, List.mem_singleton] at h
      rcases h with h | h
      · exact ih _ _ h
      · subst h; exact Nat.mod_lt _ (by norm_num)

theorem decDigitsAux_ne_nil (fuel n : Nat) (h0 : n ≠ 0) : decDigitsAux (fuel + 1) n ≠ [] := by
  simp [decDigitsAux, h0]

theorem foldl_decDigitsAux (fuel : Nat) : ∀ n, n ≤ fuel → ∀ acc,
    (decDigitsAux fuel n).foldl (fun a d => a * 10 + d) acc
      = acc * 10 ^ (decDigitsAux fuel n).length + n := by
  induction fuel with
  | zero =>
    intro n hn acc
    interval_cases n
    simp [decDigitsAux]
  | succ fuel ih =>
    intro n hn acc
    by_cases h0 : n = 0
    · simp [decDigitsAux, h0]
    · have hdiv : n / 10 ≤ fuel := by
        have : n / 10 < n := Nat.div_lt_self (Nat.pos_of_ne_zero h0) (by norm_num)
        omega
      simp only [decDigitsAux, if_neg h0, List.foldl_append, List.foldl_cons, List.foldl_nil,
        List.length_append, List.length_cons, List.length_nil]
      rw [ih _ hdiv acc]
      set L := (decDigitsAux fuel (n / 10)).length with hL
      calc (acc * 10 ^ L + n / 10) * 10 + n % 10
          = acc * (10 ^ L * 10) + (10 * (n / 10) + n % 10) := by ring
        _ = acc * 10 ^ (L + (0 + 1)) + n := by rw [Nat.div_add_mod, pow_succ]

theorem foldl_map_digitToChar (ds : List Nat) (h : ∀ d ∈ ds, d < 10) : ∀ acc,
    (ds.map digitToChar).foldl (fun a c => a * 10 + ((decDigit? c).getD 0)) acc
      = ds.foldl (fun a d => a * 10 + d) acc := by
  induction ds with
  | nil => intro acc; rfl
  | cons d ds ih =>
    intro acc
    have hd : d < 10 := h d (by simp)
    simp only [List.map_cons, List.foldl_cons]
    rw [decDigit_digitToChar d hd]
    simp only [Option.getD_some]
    exact ih (fun x hx => h x (by simp [hx])) _

theorem all_decDigit_map (ds : List Nat) (h : ∀ d ∈ ds, d < 10) :
    (ds.map digitToChar).all (fun c => (decDigit? c).isSome) = true := by
  induction ds with
  | nil => rfl
  | cons d ds ih =>
    have hd : d < 10 := h d (by simp)
    simp only [List.map_cons, List.all_cons, Bool.and_eq_true]
    exact ⟨by rw [decDigit_digitToChar d hd]; rfl, ih (fun x hx => h x (by simp [hx]))⟩

theorem decimal_roundtrip (n : Nat) : decimalToNat? (natToDecimal n) = some n := by
  by_cases h0 : n = 0
  · subst h0; rfl
  · have hlt : ∀ d ∈ decDigitsAux n n, d < 10 := fun d hd => decDigitsAux_lt n n d hd
    have hne : decDigitsAux n n ≠ [] := by
      cases n with
      | zero => exact absurd rfl h0
      | succ m => exact decDigitsAux_ne_nil m (m + 1) h0
    have hcond : ((decDigitsAux n n).map digitToChar).isEmpty = false := by
      cases h : decDigitsAux n n with
      | nil => exact absurd h hne
      | cons d ds => rfl
    unfold natToDecimal
    rw [if_neg h0]
    unfold decimalToNat?
    rw [show (⟨(decDigitsAux n n).map digitToChar⟩ : String).data
        = (decDigitsAux n n).map digitToChar from rfl]
    rw [if_neg (by simp [hcond]), if_pos (all_decDigit_map _ hlt)]
    rw [foldl_map_digitToChar _ hlt 0, foldl_decDigitsAux n n (le_refl n) 0]
    simp

theorem hexCharsToBytes_byteHexChars (bs : List Nat) (h : ∀ b ∈ bs, b < 256) :
    hexCharsToBytes (byteHexChars bs) = some bs := by
  induction bs with
  | nil => rfl
  | cons b rest ih =>
    have hb : b < 256 := h b (by simp)
    have h16a : b / 16 < 16 := by omega
    have h16b : b % 16 < 16 := by omega
    simp only [byteHexChars, hexCharsToBytes]
    rw [hexDigit_digitToChar _ h16a, hexDigit_digitToChar _ h16b,
      ih (fun x hx => h x (by simp [hx]))]
    simp
    omega

theorem hexString_roundtrip (bs : List Nat) (h : ∀ b ∈ bs, b < 256) :
    hexStringToBytes? (bytesToHexString bs) = some bs := by
  have hdata : (bytesToHexString bs).data = '0' :: 'x' :: byteHexChars bs := rfl
  unfold hexStringToBytes?
  rw [hdata]
  exact hexCharsToBytes_byteHexChars bs h

/-! Section: Tagged-JSON round trip -/

theorem encodeList_decodeList (vs : List SolidityType)
    (ih : ∀ v ∈ vs, wellFormed v = true → noNull v = true →
      (encodeTaggedJson v).bind decodeTaggedJson = some v)
    (hwf : wellFormedList vs = true) (hnn : noNullList vs = true) :
    ∃ js, encodeList vs = some js ∧ decodeList js = some vs := by
  induction vs with
  | nil => exact ⟨[], rfl, rfl⟩
  | cons v rest ihl =>
    simp only [wellFormedList, Bool.and_eq_true] at hwf
    simp only [noNullList, Bool.and_eq_true] at hnn
    obtain ⟨hwfv, hwfr⟩ := hwf
    obtain ⟨hnnv, hnnr⟩ := hnn
    have hv := ih v (by simp) hwfv hnnv
    cases hj : encodeTaggedJson v with
    | none => rw [hj] at hv; simp [Option.bind] at hv
    | some j =>
      rw [hj] at hv
      simp only [Option.bind] at hv
      obtain ⟨js, hjs, hdec⟩ := ihl (fun x hx p q => ih x (by simp [hx]) p q) hwfr hnnr
      refine ⟨j :: js, ?_, ?_⟩
      · simp [encodeList, hj, hjs]
      · simp [decodeList, hv, hdec]

theorem encodeFields_decodeFields (fs : List (String × SolidityType))
    (ih : ∀ kv ∈ fs, wellFormed kv.2 = true → noNull kv.2 = true →
      (encodeTaggedJson kv.2).bind decodeTaggedJson = some kv.2)
    (hwf : wellFormedFields fs = true) (hnn : noNullFields fs = true) :
    ∃ js, encodeFields fs = some js ∧ decodeFields js = some fs := by
  induction fs with
  | nil => exact ⟨[], rfl, rfl⟩
  | cons kv rest ihl =>
    simp only [wellFormedFields, Bool.and_eq_true] at hwf
    simp only [noNullFields, Bool.and_eq_true] at hnn
    obtain ⟨hwfv, hwfr⟩ := hwf
    obtain ⟨hnnv, hnnr⟩ := hnn
    have hv := ih kv (by simp) hwfv hnnv
    cases hj : encodeTaggedJson kv.2 with
    | none => rw [hj] at hv; simp [Option.bind] at hv
    | some j =>
      rw [hj] at hv
      simp only [Option.bind] at hv
      obtain ⟨js, hjs, hdec⟩ := ihl (fun x hx p q => ih x (by simp [hx]) p q) hwfr hnnr
      cases kv with
      | mk k v =>
        refine ⟨(k, j) :: js, ?_, ?_⟩
        · simp [encodeFields, hj, hjs]
        · simp [decodeFields, hv, hdec]

/-- C1: for every Dynamic Value that a Rust caller can construct
(`wellFormed`) and that has no `Null` descendants (`noNull`), decoding the
Tagged-JSON encoding yields the value back:
`decode_tagged_json(encode_tagged_json(v)) == v`. -/
theorem tagged_json_roundtrip : ∀ v : SolidityType, wellFormed v = true → noNull v = true →
    (encodeTaggedJson v).bind decodeTaggedJson = some v := by
  apply solInduction (P := fun v => wellFormed v = true → noNull v = true →
    (encodeTaggedJson v).bind decodeTaggedJson = some v)
  · intro b _ _
    cases b <;> rfl
  · intro v hwf _
    simp only [wellFormed, decide_eq_true_eq] at hwf
    have hred : (encodeTaggedJson (.Enum v)).bind decodeTaggedJson
        = (decimalToNat? (natToDecimal v)).bind
            (fun n => if n < 256 then some (.Enum n) else none) := rfl
    rw [hred, decimal_roundtrip v]
    simp [Option.bind, hwf]
  · intro v hwf _
    simp only [wellFormed, decide_eq_true_eq] at hwf
    have hred : (encodeTaggedJson (.Uint v)).bind decodeTaggedJson
        = (decimalToNat? (natToDecimal v)).bind
            (fun n => if n < 2 ^ 256 then some (.Uint n) else none) := rfl
    rw [hred, decimal_roundtrip v]
    simp only [Option.bind]
    rw [if_pos hwf]
  · intro a hwf _
    simp only [wellFormed, Bool.and_eq_true, decide_eq_true_eq, List.all_eq_true] at hwf
    obtain ⟨hlen, hall⟩ := hwf
    have hall' : ∀ b ∈ a, b < 256 := fun b hb => by simpa using hall b hb
    have hred : (encodeTaggedJson (.Address a)).bind decodeTaggedJson
        = (hexStringToBytes? (bytesToHexString a)).bind
            (fun bs => if bs.length = 20 then some (.Address bs) else none) := rfl
    rw [hred, hexString_roundtrip a hall']
    simp [Option.bind, hlen]
  · intro bs hwf _
    simp only [wellFormed, List.all_eq_true] at hwf
    have hall' : ∀ b ∈ bs, b < 256 := fun b hb => by simpa using hwf b hb
    have hred : (encodeTaggedJson (.ByteArray bs)).bind decodeTaggedJson
        = match hexStringToBytes? (bytesToHexString bs) with
          | some l => some (.ByteArray l)
          | none => none := rfl
    rw [hred, hexString_roundtrip bs hall']
  · intro bs hwf _
    simp only [wellFormed, Bool.and_eq_true, decide_eq_true_eq, List.all_eq_true] at hwf
    obtain ⟨hlen, hall⟩ := hwf
    have hall' : ∀ b ∈ bs, b < 256 := fun b hb => by simpa using hall b hb
    have hred : (encodeTaggedJson (.FixedArray bs)).bind decodeTaggedJson
        = (hexStringToBytes? (bytesToHexString bs)).bind
            (fun l => if l.length = 32 then some (.FixedArray l) else none) := rfl
    rw [hred, hexString_roundtrip bs hall']
    simp [Option.bind, hlen]
  · intro s _ _
    rfl
  · intro vs ih hwf hnn
    have hwf' : wellFormedList vs = true := hwf
    have hnn' : noNullList vs = true := hnn
    obtain ⟨js, hjs, hdec⟩ := encodeList_decodeList vs ih hwf' hnn'
    have henc : encodeTaggedJson (.Tuple vs) = some (taggedJson "tuple" (.arr js)) := by
      simp [encodeTaggedJson, hjs]
    have hdec2 : decodeTaggedJson (taggedJson "tuple" (.arr js)) = some (.Tuple vs) := by
      have hred : decodeTaggedJson (taggedJson "tuple" (.arr js))
          = match decodeList js with
            | some l => some (.Tuple l)
            | none => none := rfl
      rw [hred, hdec]
    rw [henc]
    simpa [Option.bind] using hdec2
  · intro vs ih hwf hnn
    have hwf' : wellFormedList vs = true := hwf
    have hnn' : noNullList vs = true := hnn
    obtain ⟨js, hjs, hdec⟩ := encodeList_decodeList vs ih hwf' hnn'
    have henc : encodeTaggedJson (.List vs) = some (taggedJson "list" (.arr js)) := by
      simp [encodeTaggedJson, hjs]
    have hdec2 : decodeTaggedJson (taggedJson "list" (.arr js)) = some (.List vs) := by
      have hred : decodeTaggedJson (taggedJson "list" (.arr js))
          = match decodeList js with
            | some l => some (.List l)
            | none => none := rfl
      rw [hred, hdec]
    rw [henc]
    simpa [Option.bind] using hdec2
  · intro fs ih hwf hnn
    have hwf' : wellFormedFields fs = true := hwf
    have hnn' : noNullFields fs = true := hnn
    obtain ⟨js, hjs, hdec⟩ := encodeFields_decodeFields fs ih hwf' hnn'
    have henc : encodeTaggedJson (.Struct fs) = some (taggedJson "struct" (.obj js)) := by
      simp [encodeTaggedJson, hjs]
    have hdec2 : decodeTaggedJson (taggedJson "struct" (.obj js)) = some (.Struct fs) := by
      have hred : decodeTaggedJson (taggedJson "struct" (.obj js))
          = match decodeFields js with
            | some l => some (.Struct l)
            | none => none := rfl
      rw [hred, hdec]
    rw [henc]
    simpa [Option.bind] using hdec2
  · intro _ hnn
    simp [noNull] at hnn

/-- Witness for C1: a concrete nested value round-trips. -/
theorem tagged_json_roundtrip_witness :
    wellFormed (SolidityType.Struct [("a", .Uint 5),
        ("b", .Tuple [.Boolean true, .String "hi", .Address (List.replicate 20 1)])]) = true
    ∧ noNull (SolidityType.Struct [("a", .Uint 5),
        ("b", .Tuple [.Boolean true, .String "hi", .Address (List.replicate 20 1)])]) = true
    ∧ (encodeTaggedJson (SolidityType.Struct [("a", .Uint 5),
        ("b", .Tuple [.Boolean true, .String "hi",
          .Address (List.replicate 20 1)])])).bind decodeTaggedJson
      = some (SolidityType.Struct [("a", .Uint 5),
        ("b", .Tuple [.Boolean true, .String "hi", .Address (List.replicate 20 1)])]) :=
  ⟨rfl, rfl, tagged_json_roundtrip _ rfl rfl⟩

/-! Section: prune-empty -/

/-- C2 (code-bug exhibit): pruning `Tuple([Null])` — a tuple that becomes
entirely empty after its children are pruned — yields the *present* value
`Tuple([])` instead of the absent result the claim requires, because the
`Tuple`/`List` branches of `to_maybe_value` test the length of the original
vector, not of the pruned one; the `Struct` branch tests the pruned map and
behaves as claimed. -/
theorem prune_keeps_emptied_tuple_present :
    toMaybeValue (.Tuple [.Null]) = some (.Tuple [])
    ∧ toMaybeValue (.List [.Null]) = some (.List [])
    ∧ toMaybeValue (.Struct [("a", .Null)]) = none :=
  ⟨rfl, rfl, rfl⟩

/-- C3 (code-bug exhibit): `prune_empty` is not idempotent on the code:
pruning `Tuple([Null])` once gives `Tuple([])`, pruning again gives absent
(`none`), so `prune_empty (prune_empty v) ≠ prune_empty v` at
`v = Tuple([Null])`; the claim's all-`Null` `Struct` part does hold. -/
theorem prune_not_idempotent_on_emptied_tuple :
    (toMaybeValue (.Tuple [.Null])).bind toMaybeValue = none
    ∧ toMaybeValue (.Tuple [.Null]) = some (.Tuple [])
    ∧ toMaybeValue (.Struct [("b", .Null), ("c", .Null)]) = none :=
  ⟨rfl, rfl, rfl⟩

/-! Section: Type guesser -/

/-- C4 (code-bug exhibit): guessing `{"_2": true, "_10": false}` iterates
the map in its `BTreeMap` (lexicographic) key order, `"_10"` before `"_2"`,
yielding `Tuple([guess(false), guess(true)])` — not the numeric-suffix
order `Tuple([guess(true), guess(false)])` the claim requires. -/
theorem guess_tuple_uses_lexicographic_key_order :
    guessJsonValue (.obj [("_2", .bool true), ("_10", .bool false)])
      = .ok (some (.Tuple [.Boolean false, .Boolean true]))
    ∧ (Except.ok (some (SolidityType.Tuple [.Boolean false, .Boolean true]))
        : Except String (Option SolidityType))
      ≠ .ok (some (.Tuple [.Boolean true, .Boolean false])) := by
  constructor
  · simp +decide [guessJsonValue, sortFields, insertField, isTupleKey, decDigit?, guessValues]
  · simp

/-- C5 (code-bug exhibit): the guesser hits `todo!` — a panic, not a
recoverable typed error — on JSON `null`. -/
theorem guess_null_panics :
    guessJsonValue Json.null
      = .error "not yet implemented: Null types shouldn't be returned?" := by
  simp [guessJsonValue]

/-- C6 counterexample: `2^63` is a non-negative integer representable in
256 bits, yet guessing it panics (`as_i64().unwrap()` fails beyond the
`i64` range) instead of returning `UnsignedInteger(2^63)`. -/
theorem guess_number_panics_above_i64 :
    guessJsonValue (Json.num (2 ^ 63)) = .error "called Option::unwrap on a None value"
    ∧ guessJsonValue (Json.num (2 ^ 63)) ≠ .ok (some (.Uint (2 ^ 63)))
    ∧ (0 : Int) ≤ 2 ^ 63 ∧ (2 ^ 63 : Int) < 2 ^ 256 := by
  have h1 : guessJsonValue (Json.num (2 ^ 63))
      = .error "called Option::unwrap on a None value" := by
    norm_num [guessJsonValue]
  exact ⟨h1, by rw [h1]; simp, by norm_num, by norm_num⟩

/-- C6 (amended): the guesser returns `UnsignedInteger` of exactly the
input value for every JSON number that is a non-negative integer *below
2^63* (the `i64` range actually supported by `as_i64().unwrap()`); larger
256-bit values panic. -/
theorem guess_number_small_nonneg (n : Int) (h0 : 0 ≤ n) (h1 : n < 2 ^ 63) :
    guessJsonValue (Json.num n) = .ok (some (.Uint n.toNat)) := by
  have hcond : -(2 ^ 63 : Int) ≤ n ∧ n < 2 ^ 63 := ⟨by omega, h1⟩
  simp only [guessJsonValue]
  rw [if_pos hcond, if_pos h0]

/-- Witness for the amended C6 at the concrete number 42. -/
theorem guess_number_small_nonneg_witness :
    (0 : Int) ≤ 42 ∧ (42 : Int) < 2 ^ 63
    ∧ guessJsonValue (Json.num 42) = .ok (some (.Uint 42)) :=
  ⟨by norm_num, by norm_num, guess_number_small_nonneg 42 (by norm_num) (by norm_num)⟩

/-! Section: get -/

/-- C7: `get` is lenient — an index key that parses but is out of range on a
`Tuple`/`List` yields `Null`; a missing `Struct` field yields `Null`; and on
every scalar and on `Null` itself, `get` yields `Null` for every key. -/
theorem get_is_lenient (key : String) :
    (∀ (vals : List SolidityType) (n : Nat),
      parseUsize? key = some n → vals.length ≤ n → get (.Tuple vals) key = .ok .Null)
    ∧ (∀ (vals : List SolidityType) (n : Nat),
      parseUsize? key = some n → vals.length ≤ n → get (.List vals) key = .ok .Null)
    ∧ (∀ fields : List (String × SolidityType),
      fields.lookup key = none → get (.Struct fields) key = .ok .Null)
    ∧ (∀ b, get (.Boolean b) key = .ok .Null)
    ∧ (∀ v, get (.Enum v) key = .ok .Null)
    ∧ (∀ v, get (.Uint v) key = .ok .Null)
    ∧ (∀ a, get (.Address a) key = .ok .Null)
    ∧ (∀ bs, get (.ByteArray bs) key = .ok .Null)
    ∧ (∀ bs, get (.FixedArray bs) key = .ok .Null)
    ∧ (∀ s, get (.String s) key = .ok .Null)
    ∧ get .Null key = .ok .Null := by
  refine ⟨?_, ?_, ?_, fun b => rfl, fun v => rfl, fun v => rfl, fun a => rfl,
    fun bs => rfl, fun bs => rfl, fun s => rfl, rfl⟩
  · intro vals n hp hlen
    by_cases hL : vals.length = 0
    · simp [get, hL]
    · have hnone : vals[n]? = none := List.getElem?_eq_none hlen
      simp [get, hL, hp, hnone]
  · intro vals n hp hlen
    by_cases hL : vals.length = 0
    · simp [get, hL]
    · have hnone : vals[n]? = none := List.getElem?_eq_none hlen
      simp [get, hL, hp, hnone]
  · intro fields hlk
    simp [get, hlk]

/-- Witness for C7: an out-of-range parsed index on a tuple and a missing
struct field both yield `Null`. -/
theorem get_is_lenient_witness :
    parseUsize? "5" = some 5
    ∧ [SolidityType.Boolean true].length ≤ 5
    ∧ get (.Tuple [.Boolean true]) "5" = .ok .Null
    ∧ List.lookup "b" [("a", SolidityType.Uint 1)] = none
    ∧ get (.Struct [("a", .Uint 1)]) "b" = .ok .Null := by
  have hp : parseUsize? "5" = some 5 := rfl
  have hlk : List.lookup "b" [("a", SolidityType.Uint 1)] = none := rfl
  exact ⟨hp, by norm_num, (get_is_lenient "5").1 [.Boolean true] 5 hp (by norm_num),
    hlk, (get_is_lenient "b").2.2.1 [("a", .Uint 1)] hlk⟩

/-! Section: Arithmetic and comparisons -/

/-- C8: `Null` is a two-sided identity for `+`;
`UnsignedInteger(5) + UnsignedInteger(7) = UnsignedInteger(12)`; and
`Text("ab") + UnsignedInteger(3) = Text("ab3")` (Text concatenates with the
right operand's canonical string). -/
theorem add_identities :
    (∀ x, add .Null x = .ok x) ∧ (∀ x, add x .Null = .ok x)
    ∧ add (.Uint 5) (.Uint 7) = .ok (.Uint 12)
    ∧ add (.String "ab") (.Uint 3) = .ok (.String "ab3") :=
  ⟨fun x => by cases x <;> rfl, fun x => by cases x <;> rfl, rfl, rfl⟩

/-- C9 counterexample: ordering two equal `Address` values is *defined* (it
returns `Some(Equal)`), not fatal — `partial_cmp` has an `Address`-`Address`
arm. -/
theorem address_ordering_defined :
    cmp (.Address (List.replicate 20 0)) (.Address (List.replicate 20 0)) = .ok (some .eq)
    ∧ (cmp (.Address (List.replicate 20 0)) (.Address (List.replicate 20 0))).isOk = true :=
  ⟨rfl, rfl⟩

/-- C9 (amended): `==`/`!=` succeed exactly on `Uint`-`Uint` and
`Address`-`Address` pairs, and ordering succeeds exactly on `Uint`-`Uint`,
`Address`-`Address` and `Text`-`Text` pairs (so `Address` ordering is
defined, `Text` equality is fatal); every other pairing is fatal. -/
theorem comparison_domain : ∀ x y : SolidityType,
    ((eqST x y).isOk = (isUintV x && isUintV y || isAddressV x && isAddressV y))
    ∧ ((neST x y).isOk = (isUintV x && isUintV y || isAddressV x && isAddressV y))
    ∧ ((cmp x y).isOk
        = (isUintV x && isUintV y || isAddressV x && isAddressV y
            || isStringV x && isStringV y)) := by
  intro x y
  refine ⟨?_, ?_, ?_⟩ <;> cases x <;> cases y <;> rfl

/-- C10: for subtraction `Null` is a two-sided identity (each side returns
the other operand), while for multiplication and division `Null` is
absorbing on both sides. -/
theorem null_policy_sub_mul_div :
    (∀ x, sub .Null x = .ok x) ∧ (∀ x, sub x .Null = .ok x)
    ∧ (∀ x, mul .Null x = .ok .Null) ∧ (∀ x, mul x .Null = .ok .Null)
    ∧ (∀ x, div .Null x = .ok .Null) ∧ (∀ x, div x .Null = .ok .Null) :=
  ⟨fun x => by cases x <;> rfl, fun x => by cases x <;> rfl,
    fun x => by cases x <;> rfl, fun x => by cases x <;> rfl,
    fun x => by cases x <;> rfl, fun x => by cases x <;> rfl⟩

end SubstreamsAlloy
